import Mathlib

/-!
Verification of the anonymous-voting session engine (`src/main.py`).

The Python service keeps five in-memory dictionaries (`InMemoryStorage`):
`sessions`, `tokens`, `votes`, `members`, `active_voting`.  We embed each
`Dict[str, V]` as an association list `List (String × V)` with Python's
update-in-place / append-at-end semantics (`upsert`) and first-match lookup
(`alookup`).  Timestamps (`time.time()`, float seconds) are embedded as `Nat`
seconds: the code only adds constants to and compares timestamps, so nothing
in the verified properties depends on fractional time.  `hashlib.sha256` is
external to the repository; every operation that hashes takes the hash as an
explicit function parameter `hashFn : String → String`.  Random generation
(`uuid.uuid4`, `secrets.token_urlsafe`) is external as well: the generated
identifier / tokens are explicit inputs, and theorems that need their
uniqueness state it as a freshness hypothesis.
-/

/-- Lookup in an association list, first match wins (Python `d[k]` / `k in d`). -/
def alookup {α : Type} (k : String) : List (String × α) → Option α
  | [] => none
  | (k1, v) :: rest => if k1 = k then some v else alookup k rest

/-- Python `d[k] = v`: replace the value in place if the key is present,
otherwise append the new binding at the end. -/
def upsert {α : Type} (k : String) (v : α) : List (String × α) → List (String × α)
  | [] => [(k, v)]
  | (k1, v1) :: rest => if k1 = k then (k, v) :: rest else (k1, v1) :: upsert k v rest

/-- Keys of an association list. -/
def akeys {α : Type} (l : List (String × α)) : List String :=
  l.map Prod.fst

/-- Member of a session roster (`class Member`). -/
structure MemberR where
  name : String
  contact : String
  deriving DecidableEq

/-- Request body of `create_session` (`class Session`). -/
structure SessionInput where
  title : String
  description : String
  members : List MemberR
  deriving DecidableEq

/-- Request body of `start_voting` (`class VotingSession`). -/
structure VotingInput where
  presenter_name : String
  topic_title : String
  topic_description : String
  duration_minutes : Nat
  deriving DecidableEq

/-- Entry of `storage.sessions` (the dict built in `create_session`). -/
structure SessionData where
  id : String
  title : String
  description : String
  created_at : Nat
  status : String
  deriving DecidableEq

/-- Entry of `storage.tokens` (the dict built in `start_voting`; `voted_at`
is added on redemption in `submit_vote`). -/
structure TokenData where
  session_id : String
  member_name : String
  used : Bool
  expires_at : Nat
  created_at : Nat
  voted_at : Option Nat
  deriving DecidableEq

/-- Entry of a session's vote ledger (`vote_record` in `submit_vote`). -/
structure VoteRecord where
  session_id : String
  choice : String
  timestamp : Nat
  token_hash : String
  deriving DecidableEq

/-- The tally dictionary `{"за": _, "против": _, "воздержался": _}`:
`za` = "за" (for), `protiv` = "против" (against), `vozd` = "воздержался"
(abstain). -/
structure Counts where
  za : Nat
  protiv : Nat
  vozd : Nat
  deriving DecidableEq

/-- Entry of `storage.active_voting` (the dict built in `start_voting`;
`results` is populated by `end_voting`). -/
structure VotingInfo where
  presenter_name : String
  topic_title : String
  topic_description : String
  start_time : Nat
  end_time : Nat
  duration_minutes : Nat
  status : String
  results : Option Counts
  deriving DecidableEq

/-- The five dictionaries of `InMemoryStorage`. -/
structure Storage where
  sessions : List (String × SessionData)
  tokens : List (String × TokenData)
  votes : List (String × List VoteRecord)
  members : List (String × List MemberR)
  active_voting : List (String × VotingInfo)
  deriving DecidableEq

/-- The empty `InMemoryStorage()`. -/
def Storage.empty : Storage := ⟨[], [], [], [], []⟩

/-- Typed rendering of the `HTTPException`s raised by the engine endpoints.
`sessionNotFound` = 404 "Сессия не найдена", `votingNotFound` = 404
"Активное голосование не найдено", `tokenNotFound` = 404 "Недействительный
токен", `alreadyUsed` = 400 "Токен уже использован", `expired` = 400 "Токен
истек", `notActive` = 400 "Голосование не активно", `invalidChoice` = 400
"Недопустимый выбор". -/
inductive ApiError
  | sessionNotFound
  | votingNotFound
  | tokenNotFound
  | alreadyUsed
  | expired
  | notActive
  | invalidChoice
  deriving DecidableEq

/-- The three admissible values of `choice` in `submit_vote`. -/
def validChoices : List String := ["за", "против", "воздержался"]

/-- One line of the `tokens` list returned by `start_voting`. -/
structure TokenOut where
  member : String
  contact : String
  token : String
  voting_url : String
  deriving DecidableEq

/-- Set the `status` field of `storage.sessions[sid]` if present
(`storage.sessions[session_id]["status"] = ...`). -/
def setSessionStatus (sid status : String) : List (String × SessionData) →
    List (String × SessionData)
  | [] => []
  | (k, sd) :: rest =>
    if k = sid then (k, { sd with status := status }) :: rest
    else (k, sd) :: setSessionStatus sid status rest

/-- `create_session` (src/main.py lines 103-129).  The fresh `uuid.uuid4()`
value is the explicit argument `sid`; `now` is `datetime.now()` /
`time.time()`.  Note that the code performs no validation of the member
list. -/
def create_session (sid : String) (now : Nat) (inp : SessionInput) (s : Storage) :
    Except ApiError String × Storage :=
  (Except.ok sid,
   { s with
     sessions := upsert sid
       { id := sid, title := inp.title, description := inp.description,
         created_at := now, status := "created" } s.sessions
     members := upsert sid inp.members s.members
     votes := upsert sid [] s.votes })

/-- `start_voting` (src/main.py lines 131-197).  `gen i` is the value of
`secrets.token_urlsafe(32)` for the `i`-th roster member; `now` is
`time.time()`.  The token expiry is `now + duration*60 + 300` (the `+5 мин
буфер`), the window end is `now + duration*60`.  The only guard is session
existence: there is no check that a window is already active. -/
def start_voting (gen : Nat → String) (sid : String) (now : Nat) (v : VotingInput)
    (s : Storage) : Except ApiError (List TokenOut × Nat) × Storage :=
  match alookup sid s.sessions with
  | none => (Except.error ApiError.sessionNotFound, s)
  | some _ =>
    let mems := (alookup sid s.members).getD []
    let outs : List TokenOut := mems.enum.map (fun p =>
      { member := p.2.name, contact := p.2.contact, token := gen p.1,
        voting_url := "/vote?token=" ++ gen p.1 })
    let newTokens : Storage → List (String × TokenData) := fun st =>
      mems.enum.foldl (fun acc p =>
        upsert (gen p.1)
          { session_id := sid, member_name := p.2.name, used := false,
            expires_at := now + v.duration_minutes * 60 + 300,
            created_at := now, voted_at := none } acc) st.tokens
    let endTime := now + v.duration_minutes * 60
    let s1 : Storage :=
      { s with
        tokens := newTokens s
        active_voting := upsert sid
          { presenter_name := v.presenter_name, topic_title := v.topic_title,
            topic_description := v.topic_description, start_time := now,
            end_time := endTime, duration_minutes := v.duration_minutes,
            status := "active", results := none } s.active_voting
        sessions := setSessionStatus sid "voting" s.sessions }
    (Except.ok (outs, endTime), s1)

/-- Fold of a ledger into the `votes_count` dictionary, as `end_voting` and
`submit_vote` compute it (counting each of the three admissible strings). -/
def countVotes (l : List VoteRecord) : Counts :=
  { za := l.countP (fun v => v.choice = "за")
    protiv := l.countP (fun v => v.choice = "против")
    vozd := l.countP (fun v => v.choice = "воздержался") }

/-- `end_voting` (src/main.py lines 205-243).  The only guard is presence in
`storage.active_voting`; a completed entry stays in that dictionary, so a
second call passes the guard and recomputes.  Unused tokens of the session
are counted into "воздержался". -/
def end_voting (sid : String) (s : Storage) : Except ApiError Counts × Storage :=
  match alookup sid s.active_voting with
  | none => (Except.error ApiError.votingNotFound, s)
  | some vi =>
    let ledger := (alookup sid s.votes).getD []
    let base := countVotes ledger
    let unused := s.tokens.countP (fun p => p.2.session_id = sid && p.2.used = false)
    let results : Counts := { base with vozd := base.vozd + unused }
    let s1 : Storage :=
      { s with
        active_voting := upsert sid
          { vi with status := "completed", results := some results } s.active_voting
        sessions := setSessionStatus sid "completed" s.sessions }
    (Except.ok results, s1)

/-- `submit_vote` (src/main.py lines 245-302).  The checks run in source
order: token known, token unused, token unexpired, window active, choice
admissible; every check precedes every mutation, so the storage component on
an error is the unchanged input storage.  On success one record carrying
`hashFn token` is appended to the session ledger and the token is marked
used. -/
def submit_vote (hashFn : String → String) (tok choice : String) (now : Nat)
    (s : Storage) : Except ApiError Unit × Storage :=
  match alookup tok s.tokens with
  | none => (Except.error ApiError.tokenNotFound, s)
  | some td =>
    if td.used then (Except.error ApiError.alreadyUsed, s)
    else if td.expires_at < now then (Except.error ApiError.expired, s)
    else
      let sid := td.session_id
      match alookup sid s.active_voting with
      | none => (Except.error ApiError.notActive, s)
      | some vi =>
        if vi.status ≠ "active" then (Except.error ApiError.notActive, s)
        else if choice ∉ validChoices then (Except.error ApiError.invalidChoice, s)
        else
          let rec1 : VoteRecord :=
            { session_id := sid, choice := choice, timestamp := now,
              token_hash := hashFn tok }
          let ledger := (alookup sid s.votes).getD []
          let s1 : Storage :=
            { s with
              votes := upsert sid (ledger ++ [rec1]) s.votes
              tokens := upsert tok
                { td with used := true, voted_at := some now } s.tokens }
          (Except.ok (), s1)

/-- Ledger of a session (`storage.votes.get(session_id, [])`). -/
def getVotes (s : Storage) (sid : String) : List VoteRecord :=
  (alookup sid s.votes).getD []

/-! Association-list lemmas used throughout. -/

theorem alookup_upsert {α : Type} (k k1 : String) (v : α) (l : List (String × α)) :
    alookup k1 (upsert k v l) = if k = k1 then some v else alookup k1 l := by
  induction l with
  | nil => simp [upsert, alookup]
  | cons hd tl ih =>
    obtain ⟨k2, v2⟩ := hd
    by_cases h2 : k2 = k
    · subst h2
      simp only [upsert, if_pos rfl, alookup]
      by_cases h1 : k2 = k1 <;> simp [h1]
    · simp only [upsert, if_neg h2, alookup]
      by_cases h1 : k2 = k1
      · subst h1
        have : ¬ k = k2 := fun h => h2 h.symm
        simp [this]
      · simp [h1, ih]

theorem alookup_append {α : Type} (k : String) (l1 l2 : List (String × α)) :
    alookup k (l1 ++ l2) =
      match alookup k l1 with
      | some v => some v
      | none => alookup k l2 := by
  induction l1 with
  | nil => simp [alookup]
  | cons hd tl ih =>
    obtain ⟨k1, v1⟩ := hd
    by_cases h : k1 = k <;> simp [alookup, h, ih]

theorem upsert_of_alookup_none {α : Type} (k : String) (v : α) (l : List (String × α))
    (h : alookup k l = none) : upsert k v l = l ++ [(k, v)] := by
  induction l with
  | nil => simp [upsert]
  | cons hd tl ih =>
    obtain ⟨k1, v1⟩ := hd
    by_cases h1 : k1 = k
    · simp [alookup, h1] at h
    · simp only [alookup, if_neg h1] at h
      simp [upsert, h1, ih h]

theorem alookup_eq_none_iff {α : Type} (k : String) (l : List (String × α)) :
    alookup k l = none ↔ k ∉ akeys l := by
  induction l with
  | nil => simp [alookup, akeys]
  | cons hd tl ih =>
    obtain ⟨k1, v1⟩ := hd
    by_cases h1 : k1 = k
    · subst h1
      simp [alookup, akeys]
    · have h2 : ¬ k = k1 := fun h => h1 h.symm
      simp [alookup, akeys, h1, h2, ih]

theorem alookup_mem {α : Type} {k : String} {v : α} {l : List (String × α)}
    (h : alookup k l = some v) : (k, v) ∈ l := by
  induction l with
  | nil => simp [alookup] at h
  | cons hd tl ih =>
    obtain ⟨k1, v1⟩ := hd
    by_cases h1 : k1 = k
    · subst h1
      have hv : v1 = v := by simpa [alookup] using h
      subst hv
      exact List.mem_cons_self _ _
    · simp only [alookup, if_neg h1] at h
      exact List.mem_cons_of_mem _ (ih h)

theorem akeys_upsert_some {α : Type} {k : String} {w : α} (v : α) {l : List (String × α)}
    (h : alookup k l = some w) : akeys (upsert k v l) = akeys l := by
  induction l with
  | nil => simp [alookup] at h
  | cons hd tl ih =>
    obtain ⟨k1, v1⟩ := hd
    by_cases h1 : k1 = k
    · subst h1
      simp [upsert, akeys]
    · simp only [alookup, if_neg h1] at h
      simp only [akeys] at ih ⊢
      simp [upsert, h1, ih h]

theorem mem_upsert {α : Type} {p : String × α} {k : String} {v : α} {l : List (String × α)}
    (h : p ∈ upsert k v l) : p = (k, v) ∨ p ∈ l := by
  induction l with
  | nil => simpa [upsert] using h
  | cons hd tl ih =>
    obtain ⟨k1, v1⟩ := hd
    by_cases h1 : k1 = k
    · subst h1
      simp only [upsert, if_pos rfl] at h
      rcases List.mem_cons.1 h with h2 | h2
      · exact Or.inl h2
      · exact Or.inr (List.mem_cons_of_mem _ h2)
    · simp only [upsert, if_neg h1] at h
      rcases List.mem_cons.1 h with h2 | h2
      · exact Or.inr (h2 ▸ List.mem_cons_self _ _)
      · rcases ih h2 with h3 | h3
        · exact Or.inl h3
        · exact Or.inr (List.mem_cons_of_mem _ h3)

theorem countP_upsert_some {α : Type} {k : String} {w : α} (v : α) {l : List (String × α)}
    (p : String × α → Bool) (h : alookup k l = some w) :
    (upsert k v l).countP p + (if p (k, w) then 1 else 0) =
      l.countP p + (if p (k, v) then 1 else 0) := by
  induction l with
  | nil => simp [alookup] at h
  | cons hd tl ih =>
    obtain ⟨k1, v1⟩ := hd
    by_cases h1 : k1 = k
    · subst h1
      have hw : v1 = w := by simpa [alookup] using h
      subst hw
      simp [upsert, List.countP_cons]
      omega
    · simp only [alookup, if_neg h1] at h
      have h2 := ih h
      simp only [upsert, if_neg h1, List.countP_cons]
      omega

theorem countP_key_eq {α : Type} {k : String} {w : α} {l : List (String × α)}
    (q : String × α → Bool) (hnd : (akeys l).Nodup) (h : alookup k l = some w) :
    l.countP (fun p => decide (p.1 = k) && q p) = if q (k, w) then 1 else 0 := by
  induction l with
  | nil => simp [alookup] at h
  | cons hd tl ih =>
    obtain ⟨k1, v1⟩ := hd
    simp only [akeys, List.map_cons, List.nodup_cons] at hnd
    by_cases h1 : k1 = k
    · subst h1
      have hw : v1 = w := by simpa [alookup] using h
      subst hw
      have htl : tl.countP (fun p => decide (p.1 = k1) && q p) = 0 := by
        rw [List.countP_eq_zero]
        intro a ha
        have : a.1 ≠ k1 := by
          intro hk
          exact hnd.1 (hk ▸ List.mem_map_of_mem Prod.fst ha)
        simp [this]
      simp [List.countP_cons, htl]
    · simp only [alookup, if_neg h1] at h
      have : ¬ (decide (k1 = k) && q (k1, v1)) = true := by simp [h1]
      simp [List.countP_cons, this, ih hnd.2 h]

theorem alookup_setSessionStatus (k sid status : String) (l : List (String × SessionData)) :
    alookup k (setSessionStatus sid status l) =
      (alookup k l).map (fun sd => if k = sid then { sd with status := status } else sd) := by
  induction l with
  | nil => simp [setSessionStatus, alookup]
  | cons hd tl ih =>
    obtain ⟨k1, v1⟩ := hd
    by_cases hs : k1 = sid
    · subst hs
      by_cases h1 : k1 = k
      · subst h1
        simp [setSessionStatus, alookup]
      · have h2 : ¬ k = k1 := fun h => h1 h.symm
        simp [setSessionStatus, alookup, h1, h2]
    · by_cases h1 : k1 = k
      · subst h1
        have h2 : ¬ k1 = sid := hs
        simp [setSessionStatus, alookup, h2]
      · simp [setSessionStatus, alookup, hs, h1, ih]

theorem foldl_upsert_fresh {β : Type} (f : Nat × β → String) (g : Nat × β → TokenData) :
    ∀ (ps : List (Nat × β)) (acc : List (String × TokenData)),
      (ps.map f).Nodup → (∀ p ∈ ps, alookup (f p) acc = none) →
      ps.foldl (fun a p => upsert (f p) (g p) a) acc = acc ++ ps.map (fun p => (f p, g p)) := by
  intro ps
  induction ps with
  | nil => intro acc _ _; simp
  | cons hd tl ih =>
    intro acc hnd hfresh
    simp only [List.map_cons, List.nodup_cons] at hnd
    simp only [List.foldl_cons, List.map_cons]
    rw [upsert_of_alookup_none _ _ _ (hfresh hd (List.mem_cons_self _ _))]
    rw [ih (acc ++ [(f hd, g hd)]) hnd.2]
    · simp
    · intro p hp
      rw [alookup_append, hfresh p (List.mem_cons_of_mem _ hp)]
      have h2 : ¬ f hd = f p := by
        intro he
        exact hnd.1 (he ▸ List.mem_map_of_mem f hp)
      simp [alookup, h2]

/-! Derived counts and reachable states. -/

/-- Number of redeemed credentials of a session (`used` tokens in
`storage.tokens` carrying this `session_id`). -/
def usedCount (s : Storage) (sid : String) : Nat :=
  s.tokens.countP (fun p => p.2.session_id = sid && p.2.used)

/-- Number of redeemed credentials of a session whose hash is `h`. -/
def usedCountHash (hashFn : String → String) (s : Storage) (sid h : String) : Nat :=
  s.tokens.countP (fun p => p.2.session_id = sid && p.2.used && hashFn p.1 = h)

/-- Number of credentials ever minted for a session. -/
def sidTokenCount (s : Storage) (sid : String) : Nat :=
  s.tokens.countP (fun p => p.2.session_id = sid)

/-- Number of unredeemed credentials of a session, as `end_voting` counts
them. -/
def unusedCount (s : Storage) (sid : String) : Nat :=
  s.tokens.countP (fun p => p.2.session_id = sid && p.2.used = false)

/-- The token entries minted by `start_voting` for roster `mems`. -/
def mintedEntries (gen : Nat → String) (sid : String) (now : Nat) (v : VotingInput)
    (mems : List MemberR) : List (String × TokenData) :=
  mems.enum.map (fun p =>
    (gen p.1, { session_id := sid, member_name := p.2.name, used := false,
                expires_at := now + v.duration_minutes * 60 + 300,
                created_at := now, voted_at := none }))

/-- The `active_voting` entry written by `start_voting`. -/
def startedWindow (now : Nat) (v : VotingInput) : VotingInfo :=
  { presenter_name := v.presenter_name, topic_title := v.topic_title,
    topic_description := v.topic_description, start_time := now,
    end_time := now + v.duration_minutes * 60, duration_minutes := v.duration_minutes,
    status := "active", results := none }

/-- Shape of the storage produced by a `start_voting` call whose session
exists and whose generated tokens are fresh and pairwise distinct. -/
theorem start_voting_shape (gen : Nat → String) (sid : String) (now : Nat)
    (v : VotingInput) (s : Storage) (sd : SessionData)
    (hs : alookup sid s.sessions = some sd)
    (hnd : (((alookup sid s.members).getD []).enum.map (fun p => gen p.1)).Nodup)
    (hfresh : ∀ p ∈ ((alookup sid s.members).getD []).enum,
      alookup (gen p.1) s.tokens = none) :
    start_voting gen sid now v s =
      (Except.ok ((((alookup sid s.members).getD []).enum.map (fun p =>
          { member := p.2.name, contact := p.2.contact, token := gen p.1,
            voting_url := "/vote?token=" ++ gen p.1 })),
        now + v.duration_minutes * 60),
       { s with
         tokens := s.tokens ++ mintedEntries gen sid now v ((alookup sid s.members).getD [])
         active_voting := upsert sid (startedWindow now v) s.active_voting
         sessions := setSessionStatus sid "voting" s.sessions }) := by
  have hfold := foldl_upsert_fresh (fun p => gen p.1)
    (fun p => { session_id := sid, member_name := p.2.name, used := false,
                expires_at := now + v.duration_minutes * 60 + 300,
                created_at := now, voted_at := none })
    ((alookup sid s.members).getD []).enum s.tokens hnd hfresh
  simp [start_voting, hs, hfold, mintedEntries, startedWindow]

/-- Shape of the storage produced by a successful `submit_vote`. -/
theorem submit_vote_success_shape (hashFn : String → String) (tok choice : String)
    (now : Nat) (s : Storage) (td : TokenData) (vi : VotingInfo)
    (htd : alookup tok s.tokens = some td) (hused : td.used = false)
    (hexp : ¬ td.expires_at < now)
    (hvi : alookup td.session_id s.active_voting = some vi)
    (hact : vi.status = "active") (hch : choice ∈ validChoices) :
    submit_vote hashFn tok choice now s =
      (Except.ok (),
       { s with
         votes := upsert td.session_id
           (getVotes s td.session_id ++
             [{ session_id := td.session_id, choice := choice, timestamp := now,
                token_hash := hashFn tok }]) s.votes
         tokens := upsert tok { td with used := true, voted_at := some now } s.tokens }) := by
  simp [submit_vote, htd, hused, hexp, hvi, hact, hch, getVotes]

/-- Whenever `submit_vote` raises, the storage it leaves behind is the input
storage: every check in the source precedes every mutation. -/
theorem submit_vote_err_state (hashFn : String → String) (tok choice : String) (now : Nat)
    (s : Storage) (e : ApiError)
    (h : (submit_vote hashFn tok choice now s).1 = Except.error e) :
    (submit_vote hashFn tok choice now s).2 = s := by
  unfold submit_vote at *
  cases halo : alookup tok s.tokens with
  | none => simp [halo]
  | some td =>
    simp only [halo] at h ⊢
    by_cases h1 : td.used
    · simp [h1]
    · simp only [h1] at h ⊢
      by_cases h2 : td.expires_at < now
      · simp [h2]
      · simp only [h2] at h ⊢
        cases hvi : alookup td.session_id s.active_voting with
        | none => simp [hvi]
        | some vi =>
          simp only [hvi] at h ⊢
          by_cases h3 : vi.status = "active"
          · simp only [h3] at h ⊢
            by_cases h4 : choice ∈ validChoices
            · simp [h4] at h
            · simp [h4]
          · simp [h3]

/-- The `votes_count` dictionary computed by `end_voting`: the fold of the
session ledger with the unredeemed-token count added to "воздержался". -/
def finalResults (s : Storage) (sid : String) : Counts :=
  let base := countVotes (getVotes s sid)
  { base with vozd := base.vozd + unusedCount s sid }

/-- Shape of the storage produced by an `end_voting` call that passes its
guard, and of the results it returns. -/
theorem end_voting_shape (sid : String) (s : Storage) (vi : VotingInfo)
    (hvi : alookup sid s.active_voting = some vi) :
    end_voting sid s =
      (Except.ok (finalResults s sid),
       { s with
         active_voting := upsert sid
           { vi with
             status := "completed"
             results := some (finalResults s sid) } s.active_voting
         sessions := setSessionStatus sid "completed" s.sessions }) := by
  simp [end_voting, hvi, finalResults, unusedCount, getVotes]

/-- One engine transition: a call of one of the four mutating endpoints, with
the freshness of `uuid.uuid4()` and `secrets.token_urlsafe(32)` outputs made
explicit as side conditions. -/
inductive Step (hashFn : String → String) : Storage → Storage → Prop
  | create (sid : String) (now : Nat) (inp : SessionInput) (s : Storage)
      (hfresh : alookup sid s.sessions = none) :
      Step hashFn s (create_session sid now inp s).2
  | start (gen : Nat → String) (sid : String) (now : Nat) (v : VotingInput) (s : Storage)
      (hnd : (((alookup sid s.members).getD []).enum.map (fun p => gen p.1)).Nodup)
      (hfresh : ∀ p ∈ ((alookup sid s.members).getD []).enum,
        alookup (gen p.1) s.tokens = none) :
      Step hashFn s (start_voting gen sid now v s).2
  | submit (tok choice : String) (now : Nat) (s : Storage) :
      Step hashFn s (submit_vote hashFn tok choice now s).2
  | close (sid : String) (s : Storage) :
      Step hashFn s (end_voting sid s).2

/-- States reachable from the empty storage by engine transitions. -/
inductive Reachable (hashFn : String → String) : Storage → Prop
  | init : Reachable hashFn Storage.empty
  | step {s s1 : Storage} : Reachable hashFn s → Step hashFn s s1 → Reachable hashFn s1

/-- The state invariant maintained by every engine transition: token keys
are distinct, every token and every ledger belongs to a known session, each
session's ledger is as long as its set of redeemed credentials, ledger
entries with a given hash are counted by redeemed credentials with that
hash, and every ledger entry carries a valid choice and the hash of a
redeemed credential of its session. -/
structure EngineInv (hashFn : String → String) (s : Storage) : Prop where
  tokensNodup : (akeys s.tokens).Nodup
  tokenSession : ∀ p ∈ s.tokens,
    (alookup (TokenData.session_id p.2) s.sessions).isSome = true
  votesSession : ∀ sid : String, alookup sid s.votes ≠ none →
    (alookup sid s.sessions).isSome = true
  ledgerLen : ∀ sid : String, (getVotes s sid).length = usedCount s sid
  ledgerHash : ∀ sid h : String,
    (getVotes s sid).countP (fun v => v.token_hash = h) = usedCountHash hashFn s sid h
  ledgerRecord : ∀ sid : String, ∀ v ∈ getVotes s sid,
    v.session_id = sid ∧ v.choice ∈ validChoices ∧
      ∃ t td, alookup t s.tokens = some td ∧ td.used = true ∧ td.session_id = sid ∧
        v.token_hash = hashFn t

/-! Preservation of the invariant by each transition. -/

theorem inv_create (hashFn : String → String) (sid : String) (now : Nat)
    (inp : SessionInput) (s : Storage) (hinv : EngineInv hashFn s)
    (hfresh : alookup sid s.sessions = none) :
    EngineInv hashFn (create_session sid now inp s).2 := by
  have hTok0 : ∀ p ∈ s.tokens, ¬ (TokenData.session_id p.2 = sid) := by
    intro p hp he
    have h1 := hinv.tokenSession p hp
    rw [he, hfresh] at h1
    simp at h1
  constructor
  · simpa [create_session] using hinv.tokensNodup
  · intro p hp
    have hp2 : p ∈ s.tokens := by simpa [create_session] using hp
    show (alookup (TokenData.session_id p.2)
      (upsert sid _ s.sessions)).isSome = true
    rw [alookup_upsert]
    by_cases h1 : sid = TokenData.session_id p.2
    · simp [h1]
    · simp only [if_neg h1]
      exact hinv.tokenSession p hp2
  · intro sid1 h
    show (alookup sid1 (upsert sid _ s.sessions)).isSome = true
    have h2 : alookup sid1 (upsert sid ([] : List VoteRecord) s.votes) ≠ none := h
    rw [alookup_upsert] at h2
    rw [alookup_upsert]
    by_cases h1 : sid = sid1
    · simp [h1]
    · simp only [if_neg h1] at h2 ⊢
      exact hinv.votesSession sid1 h2
  · intro sid1
    show ((alookup sid1 (upsert sid ([] : List VoteRecord) s.votes)).getD []).length =
      s.tokens.countP _
    rw [alookup_upsert]
    by_cases h1 : sid = sid1
    · subst h1
      rw [if_pos rfl]
      have h2 : usedCount s sid = 0 := by
        rw [usedCount, List.countP_eq_zero]
        intro p hp
        simp [hTok0 p hp]
      simpa using h2.symm
    · rw [if_neg h1]
      exact hinv.ledgerLen sid1
  · intro sid1 h
    show ((alookup sid1 (upsert sid ([] : List VoteRecord) s.votes)).getD []).countP _ =
      s.tokens.countP _
    rw [alookup_upsert]
    by_cases h1 : sid = sid1
    · subst h1
      rw [if_pos rfl]
      have h2 : usedCountHash hashFn s sid h = 0 := by
        rw [usedCountHash, List.countP_eq_zero]
        intro p hp
        simp [hTok0 p hp]
      simpa using h2.symm
    · rw [if_neg h1]
      exact hinv.ledgerHash sid1 h
  · intro sid1 v hv
    have hv2 : v ∈ (alookup sid1 (upsert sid ([] : List VoteRecord) s.votes)).getD [] := hv
    rw [alookup_upsert] at hv2
    by_cases h1 : sid = sid1
    · rw [if_pos h1] at hv2
      simp at hv2
    · rw [if_neg h1] at hv2
      obtain ⟨ha, hb, t, td, hc, hd, he, hf⟩ := hinv.ledgerRecord sid1 v hv2
      exact ⟨ha, hb, t, td, hc, hd, he, hf⟩

theorem inv_close (hashFn : String → String) (sid : String) (s : Storage)
    (hinv : EngineInv hashFn s) : EngineInv hashFn (end_voting sid s).2 := by
  cases hvi : alookup sid s.active_voting with
  | none =>
    have : (end_voting sid s).2 = s := by simp [end_voting, hvi]
    rw [this]
    exact hinv
  | some vi =>
    rw [end_voting_shape sid s vi hvi]
    constructor
    · exact hinv.tokensNodup
    · intro p hp
      show (alookup (TokenData.session_id p.2)
        (setSessionStatus sid "completed" s.sessions)).isSome = true
      rw [alookup_setSessionStatus]
      simpa using hinv.tokenSession p hp
    · intro sid1 h
      show (alookup sid1 (setSessionStatus sid "completed" s.sessions)).isSome = true
      rw [alookup_setSessionStatus]
      simpa using hinv.votesSession sid1 h
    · exact hinv.ledgerLen
    · exact hinv.ledgerHash
    · exact hinv.ledgerRecord

/-- A successful `submit_vote` implies every guard in the source passed. -/
theorem submit_vote_ok_inv (hashFn : String → String) (tok choice : String) (now : Nat)
    (s : Storage) (h : (submit_vote hashFn tok choice now s).1 = Except.ok ()) :
    ∃ td vi, alookup tok s.tokens = some td ∧ td.used = false ∧
      ¬ td.expires_at < now ∧ alookup td.session_id s.active_voting = some vi ∧
      vi.status = "active" ∧ choice ∈ validChoices := by
  unfold submit_vote at h
  cases halo : alookup tok s.tokens with
  | none => rw [halo] at h; simp at h
  | some td =>
    rw [halo] at h
    by_cases h1 : td.used
    · simp [h1] at h
    · rw [Bool.not_eq_true] at h1
      simp only [h1, Bool.false_eq_true, if_false] at h
      by_cases h2 : td.expires_at < now
      · simp [h2] at h
      · simp only [if_neg h2] at h
        cases hvi : alookup td.session_id s.active_voting with
        | none => rw [hvi] at h; simp at h
        | some vi =>
          rw [hvi] at h
          by_cases h3 : vi.status = "active"
          · simp only [h3, ne_eq, not_true_eq_false, if_false] at h
            by_cases h4 : choice ∈ validChoices
            · exact ⟨td, vi, rfl, h1, h2, hvi, h3, h4⟩
            · simp [h4] at h
          · simp [h3] at h


theorem countP_upsert_tt {α : Type} {k : String} {w : α} {v : α} {l : List (String × α)}
    {p : String × α → Bool} (h : alookup k l = some w) (hw : p (k, w) = false)
    (hv : p (k, v) = true) : (upsert k v l).countP p = l.countP p + 1 := by
  have hc := countP_upsert_some (l := l) v p h
  rw [hw, hv] at hc
  simp at hc
  omega

theorem countP_upsert_ff {α : Type} {k : String} {w : α} {v : α} {l : List (String × α)}
    {p : String × α → Bool} (h : alookup k l = some w) (hw : p (k, w) = false)
    (hv : p (k, v) = false) : (upsert k v l).countP p = l.countP p := by
  have hc := countP_upsert_some (l := l) v p h
  rw [hw, hv] at hc
  simp at hc
  omega

/-- Redeeming a token raises the redeemed-token count of its session by one
and leaves other sessions' counts unchanged. -/
theorem usedCount_redeem {s : Storage} {tok : String} {td : TokenData} (now : Nat)
    (htd : alookup tok s.tokens = some td) (hused : td.used = false) (sid1 : String) :
    (upsert tok { td with used := true, voted_at := some now } s.tokens).countP
        (fun p => p.2.session_id = sid1 && p.2.used) =
      usedCount s sid1 + (if td.session_id = sid1 then 1 else 0) := by
  rw [usedCount]
  by_cases h1 : td.session_id = sid1
  · rw [if_pos h1]
    exact countP_upsert_tt htd (by simp [hused]) (by simp [h1])
  · rw [if_neg h1]
    exact countP_upsert_ff htd (by simp [hused]) (by simp [h1])

/-- Redeeming a token raises the count of redeemed tokens hashing to
`hashFn tok` in its session by one, and no other hash count. -/
theorem usedCountHash_redeem (hashFn : String → String) {s : Storage} {tok : String}
    {td : TokenData} (now : Nat) (htd : alookup tok s.tokens = some td)
    (hused : td.used = false) (sid1 h : String) :
    (upsert tok { td with used := true, voted_at := some now } s.tokens).countP
        (fun p => p.2.session_id = sid1 && p.2.used && hashFn p.1 = h) =
      usedCountHash hashFn s sid1 h +
        (if td.session_id = sid1 ∧ hashFn tok = h then 1 else 0) := by
  rw [usedCountHash]
  by_cases h1 : td.session_id = sid1
  · by_cases h2 : hashFn tok = h
    · rw [if_pos ⟨h1, h2⟩]
      exact countP_upsert_tt htd (by simp [hused]) (by simp [h1, h2])
    · rw [if_neg (fun hx => h2 hx.2)]
      exact countP_upsert_ff htd (by simp [hused]) (by simp [h1, h2])
  · rw [if_neg (fun hx => h1 hx.1)]
    exact countP_upsert_ff htd (by simp [hused]) (by simp [h1])

theorem inv_submit (hashFn : String → String) (tok choice : String) (now : Nat)
    (s : Storage) (hinv : EngineInv hashFn s) :
    EngineInv hashFn (submit_vote hashFn tok choice now s).2 := by
  cases hres : (submit_vote hashFn tok choice now s).1 with
  | error e =>
    rw [submit_vote_err_state hashFn tok choice now s e hres]
    exact hinv
  | ok u =>
    obtain ⟨td, vi, htd, hused, hexp, hvi, hact, hch⟩ :=
      submit_vote_ok_inv hashFn tok choice now s (by cases u; exact hres)
    have hmem : (tok, td) ∈ s.tokens := alookup_mem htd
    rw [submit_vote_success_shape hashFn tok choice now s td vi htd hused hexp hvi hact hch]
    constructor
    · show (akeys (upsert tok { td with used := true, voted_at := some now }
        s.tokens)).Nodup
      rw [akeys_upsert_some _ htd]
      exact hinv.tokensNodup
    · intro p hp
      rcases mem_upsert hp with h1 | h1
      · subst h1
        exact hinv.tokenSession (tok, td) hmem
      · exact hinv.tokenSession p h1
    · intro sid1 hne
      rw [alookup_upsert] at hne
      by_cases h1 : td.session_id = sid1
      · subst h1
        exact hinv.tokenSession (tok, td) hmem
      · rw [if_neg h1] at hne
        exact hinv.votesSession sid1 hne
    · intro sid1
      show ((alookup sid1 (upsert td.session_id _ s.votes)).getD []).length = _
      rw [alookup_upsert, usedCount]
      rw [usedCount_redeem now htd hused sid1]
      by_cases h1 : td.session_id = sid1
      · rw [if_pos h1, if_pos h1]
        subst h1
        simp [hinv.ledgerLen td.session_id]
      · rw [if_neg h1, if_neg h1]
        simpa using hinv.ledgerLen sid1
    · intro sid1 h
      show ((alookup sid1 (upsert td.session_id _ s.votes)).getD []).countP _ = _
      rw [alookup_upsert, usedCountHash]
      rw [usedCountHash_redeem hashFn now htd hused sid1 h]
      by_cases h1 : td.session_id = sid1
      · rw [if_pos h1]
        subst h1
        by_cases h2 : hashFn tok = h
        · rw [if_pos ⟨rfl, h2⟩]
          have := hinv.ledgerHash td.session_id h
          simp [List.countP_append, List.countP_cons, h2, this]
        · rw [if_neg (fun hx => h2 hx.2)]
          have := hinv.ledgerHash td.session_id h
          simp [List.countP_append, List.countP_cons, h2, this]
      · rw [if_neg h1, if_neg (fun hx => h1 hx.1)]
        simpa using hinv.ledgerHash sid1 h
    · intro sid1 v hv
      have hv2 : v ∈ (alookup sid1 (upsert td.session_id
          (getVotes s td.session_id ++
            [{ session_id := td.session_id, choice := choice, timestamp := now,
               token_hash := hashFn tok }]) s.votes)).getD [] := hv
      rw [alookup_upsert] at hv2
      have hwitness : ∀ t1 td1, alookup t1 s.tokens = some td1 → td1.used = true →
          alookup t1 (upsert tok { td with used := true, voted_at := some now }
            s.tokens) = some td1 := by
        intro t1 td1 ha hb
        have hne : tok ≠ t1 := by
          intro he
          subst he
          rw [htd] at ha
          injection ha with he2
          rw [← he2] at hb
          rw [hused] at hb
          cases hb
        rw [alookup_upsert, if_neg hne]
        exact ha
      by_cases h1 : td.session_id = sid1
      · rw [if_pos h1] at hv2
        simp only [Option.getD_some] at hv2
        rcases List.mem_append.1 hv2 with h2 | h2
        · obtain ⟨ha, hb, t1, td1, hc, hd, he, hf⟩ :=
            hinv.ledgerRecord td.session_id v (h1 ▸ h2)
          exact ⟨h1 ▸ ha, hb, t1, td1, hwitness t1 td1 hc hd, hd, h1 ▸ he, hf⟩
        · have hveq : v = { session_id := td.session_id, choice := choice, timestamp := now, token_hash := hashFn tok } := by
            simpa using h2
          subst hveq
          refine ⟨h1, hch, tok, { td with used := true, voted_at := some now },
            ?_, rfl, h1, rfl⟩
          rw [alookup_upsert, if_pos rfl]
      · rw [if_neg h1] at hv2
        obtain ⟨ha, hb, t1, td1, hc, hd, he, hf⟩ := hinv.ledgerRecord sid1 v hv2
        exact ⟨ha, hb, t1, td1, hwitness t1 td1 hc hd, hd, he, hf⟩

theorem akeys_append {α : Type} (l1 l2 : List (String × α)) :
    akeys (l1 ++ l2) = akeys l1 ++ akeys l2 := by
  simp [akeys]

theorem inv_start (hashFn : String → String) (gen : Nat → String) (sid : String)
    (now : Nat) (v : VotingInput) (s : Storage) (hinv : EngineInv hashFn s)
    (hnd : (((alookup sid s.members).getD []).enum.map (fun p => gen p.1)).Nodup)
    (hfresh : ∀ p ∈ ((alookup sid s.members).getD []).enum,
      alookup (gen p.1) s.tokens = none) :
    EngineInv hashFn (start_voting gen sid now v s).2 := by
  cases hs : alookup sid s.sessions with
  | none =>
    have h0 : (start_voting gen sid now v s).2 = s := by simp [start_voting, hs]
    rw [h0]
    exact hinv
  | some sd =>
    rw [start_voting_shape gen sid now v s sd hs hnd hfresh]
    have hmint : ∀ q ∈ mintedEntries gen sid now v ((alookup sid s.members).getD []),
        q.2.used = false ∧ q.2.session_id = sid := by
      intro q hq
      rw [mintedEntries] at hq
      obtain ⟨p, hp, rfl⟩ := List.mem_map.1 hq
      exact ⟨rfl, rfl⟩
    have hkeys : akeys (mintedEntries gen sid now v ((alookup sid s.members).getD [])) =
        ((alookup sid s.members).getD []).enum.map (fun p => gen p.1) := by
      simp [mintedEntries, akeys, List.map_map]
    constructor
    · show (akeys (s.tokens ++
        mintedEntries gen sid now v ((alookup sid s.members).getD []))).Nodup
      rw [akeys_append, hkeys]
      refine hinv.tokensNodup.append hnd ?_
      intro a ha hb
      obtain ⟨p, hp, rfl⟩ := List.mem_map.1 hb
      exact ((alookup_eq_none_iff (gen p.1) s.tokens).mp (hfresh p hp)) ha
    · intro p hp
      rcases List.mem_append.1 hp with h1 | h1
      · show (alookup (TokenData.session_id p.2)
          (setSessionStatus sid "voting" s.sessions)).isSome = true
        rw [alookup_setSessionStatus]
        simpa using hinv.tokenSession p h1
      · show (alookup (TokenData.session_id p.2)
          (setSessionStatus sid "voting" s.sessions)).isSome = true
        rw [(hmint p h1).2, alookup_setSessionStatus, hs]
        simp
    · intro sid1 hne
      show (alookup sid1 (setSessionStatus sid "voting" s.sessions)).isSome = true
      rw [alookup_setSessionStatus]
      simpa using hinv.votesSession sid1 hne
    · intro sid1
      show ((alookup sid1 s.votes).getD []).length =
        (s.tokens ++
          mintedEntries gen sid now v ((alookup sid s.members).getD [])).countP _
      rw [List.countP_append]
      have h0 : (mintedEntries gen sid now v
          ((alookup sid s.members).getD [])).countP
            (fun p => p.2.session_id = sid1 && p.2.used) = 0 := by
        rw [List.countP_eq_zero]
        intro q hq
        simp [(hmint q hq).1]
      rw [h0]
      simpa using hinv.ledgerLen sid1
    · intro sid1 h
      show ((alookup sid1 s.votes).getD []).countP _ =
        (s.tokens ++
          mintedEntries gen sid now v ((alookup sid s.members).getD [])).countP _
      rw [List.countP_append]
      have h0 : (mintedEntries gen sid now v
          ((alookup sid s.members).getD [])).countP
            (fun p => p.2.session_id = sid1 && p.2.used && hashFn p.1 = h) = 0 := by
        rw [List.countP_eq_zero]
        intro q hq
        simp [(hmint q hq).1]
      rw [h0]
      simpa using hinv.ledgerHash sid1 h
    · intro sid1 v1 hv
      obtain ⟨ha, hb, t1, td1, hc, hd, he, hf⟩ := hinv.ledgerRecord sid1 v1 hv
      refine ⟨ha, hb, t1, td1, ?_, hd, he, hf⟩
      show alookup t1 (s.tokens ++
        mintedEntries gen sid now v ((alookup sid s.members).getD [])) = some td1
      rw [alookup_append, hc]

/-- The invariant holds in the empty storage. -/
theorem inv_empty (hashFn : String → String) : EngineInv hashFn Storage.empty := by
  constructor
  · simp [Storage.empty, akeys]
  · intro p hp
    simp [Storage.empty] at hp
  · intro sid1 h
    simp [Storage.empty, alookup] at h
  · intro sid1
    simp [Storage.empty, getVotes, usedCount, alookup]
  · intro sid1 h
    simp [Storage.empty, getVotes, usedCountHash, alookup]
  · intro sid1 v hv
    simp [Storage.empty, getVotes, alookup] at hv

/-- Every transition preserves the invariant. -/
theorem inv_step (hashFn : String → String) {s s1 : Storage}
    (hinv : EngineInv hashFn s) (hstep : Step hashFn s s1) : EngineInv hashFn s1 := by
  cases hstep with
  | create sid now inp s hfresh => exact inv_create hashFn sid now inp s hinv hfresh
  | start gen sid now v s hnd hfresh => exact inv_start hashFn gen sid now v s hinv hnd hfresh
  | submit tok choice now s => exact inv_submit hashFn tok choice now s hinv
  | close sid s => exact inv_close hashFn sid s hinv

/-- Every reachable state satisfies the invariant. -/
theorem inv_of_reachable (hashFn : String → String) {s : Storage}
    (h : Reachable hashFn s) : EngineInv hashFn s := by
  induction h with
  | init => exact inv_empty hashFn
  | step hr hstep ih => exact inv_step hashFn ih hstep

/-! Concrete runs used to instantiate the theorems. -/

/-- An injective executable stand-in for `hash_token` (src/main.py lines
99-100); the real function is `sha256(·).hexdigest()`, which lives outside
the repository, so operations take the hash function as a parameter and the
concrete instantiations use this one. -/
def hashF (t : String) : String := "h:" ++ t

theorem hashF_injective : Function.Injective hashF := by
  intro a b h
  have h2 : ("h:" ++ a).data = ("h:" ++ b).data := congrArg String.data h
  rw [String.data_append, String.data_append] at h2
  exact String.ext (List.append_cancel_left h2)

/-- Token generator for the concrete one-member run. -/
def genA : Nat → String := fun _ => "tokA"

/-- Token generator for the second concrete window. -/
def genB : Nat → String := fun _ => "tokB"

/-- Roster input of the concrete run: one member. -/
def exInput : SessionInput :=
  { title := "t", description := "d", members := [{ name := "alice", contact := "a@x" }] }

/-- Window input of the concrete run: a five-minute topic. -/
def exVoting : VotingInput :=
  { presenter_name := "p", topic_title := "tt", topic_description := "td",
    duration_minutes := 5 }

/-- Storage after `create_session` of the concrete run. -/
def exS1 : Storage := (create_session "s1" 0 exInput Storage.empty).2

/-- Storage after `start_voting` of the concrete run. -/
def exS2 : Storage := (start_voting genA "s1" 0 exVoting exS1).2

/-- Storage after member `alice` redeems `tokA` voting "за". -/
def exS3 : Storage := (submit_vote hashF "tokA" "за" 10 exS2).2

/-- Storage after `end_voting` of the concrete run. -/
def exS4 : Storage := (end_voting "s1" exS3).2

/-- The token entry of `tokA` after redemption. -/
def exTd : TokenData :=
  { session_id := "s1", member_name := "alice", used := true, expires_at := 600,
    created_at := 0, voted_at := some 10 }

theorem exS1_reachable : Reachable hashF exS1 :=
  Reachable.step Reachable.init (Step.create "s1" 0 exInput Storage.empty rfl)

theorem exS2_reachable : Reachable hashF exS2 :=
  Reachable.step exS1_reachable
    (Step.start genA "s1" 0 exVoting exS1 (by decide) (by decide))

theorem exS3_reachable : Reachable hashF exS3 :=
  Reachable.step exS2_reachable (Step.submit "tokA" "за" 10 exS2)

theorem exS4_reachable : Reachable hashF exS4 :=
  Reachable.step exS3_reachable (Step.close "s1" exS3)

/-! Claim theorems. -/

/-- C8 counterexample: `create_session` called with an empty membership list
does not fail with any error — it returns success and records the session.
The claimed `InvalidRoster` rejection does not exist in the code. -/
theorem c8_counterexample :
    (create_session "s0" 0 { title := "t", description := "d", members := [] }
      Storage.empty).1 = Except.ok "s0" ∧
    alookup "s0" (create_session "s0" 0 { title := "t", description := "d", members := [] }
      Storage.empty).2.sessions =
      some { id := "s0", title := "t", description := "d", created_at := 0,
             status := "created" } ∧
    alookup "s0" (create_session "s0" 0 { title := "t", description := "d", members := [] }
      Storage.empty).2.votes = some [] :=
  ⟨rfl, rfl, rfl⟩

/-- C8 (amended): `create_session` performs no roster validation at all —
every call, also with an empty membership list, succeeds, records the
session under the supplied identifier with status "created", stores the
roster, initializes an empty vote ledger, and leaves every other session
untouched.  Uniqueness of the identifier rests solely on `uuid.uuid4()`. -/
theorem c8_create_session_accepts_any_roster (sid : String) (now : Nat)
    (inp : SessionInput) (s : Storage) :
    (create_session sid now inp s).1 = Except.ok sid ∧
    alookup sid (create_session sid now inp s).2.sessions =
      some { id := sid, title := inp.title, description := inp.description,
             created_at := now, status := "created" } ∧
    alookup sid (create_session sid now inp s).2.votes = some [] ∧
    alookup sid (create_session sid now inp s).2.members = some inp.members ∧
    (∀ sid1, sid ≠ sid1 →
      alookup sid1 (create_session sid now inp s).2.sessions = alookup sid1 s.sessions) := by
  refine ⟨rfl, ?_, ?_, ?_, ?_⟩
  · show alookup sid (upsert sid _ s.sessions) = _
    rw [alookup_upsert, if_pos rfl]
  · show alookup sid (upsert sid _ s.votes) = _
    rw [alookup_upsert, if_pos rfl]
  · show alookup sid (upsert sid _ s.members) = _
    rw [alookup_upsert, if_pos rfl]
  · intro sid1 hne
    show alookup sid1 (upsert sid _ s.sessions) = _
    rw [alookup_upsert, if_neg hne]

/-- C8 witness: the amended statement instantiated on the empty-roster call. -/
theorem c8_witness :
    alookup "s0" (create_session "s0" 0 { title := "t", description := "d", members := [] }
      Storage.empty).2.members = some [] ∧
    alookup "s9" (create_session "s0" 0 { title := "t", description := "d", members := [] }
      Storage.empty).2.sessions = alookup "s9" Storage.empty.sessions :=
  ⟨(c8_create_session_accepts_any_roster "s0" 0
      { title := "t", description := "d", members := [] } Storage.empty).2.2.2.1,
   (c8_create_session_accepts_any_roster "s0" 0
      { title := "t", description := "d", members := [] } Storage.empty).2.2.2.2 "s9"
      (by decide)⟩

/-- C9: the tally fold is invariant under permutation of the ledger. -/
theorem c9_tally_order_independent (l1 l2 : List VoteRecord) (h : l1.Perm l2) :
    countVotes l1 = countVotes l2 := by
  simp only [countVotes, Counts.mk.injEq]
  exact ⟨h.countP_eq _, h.countP_eq _, h.countP_eq _⟩

/-- C9 witness: swapping two concrete ledger entries leaves the tally
unchanged. -/
theorem c9_witness :
    countVotes [{ session_id := "s1", choice := "за", timestamp := 1, token_hash := "x" },
                { session_id := "s1", choice := "против", timestamp := 2, token_hash := "y" }] =
    countVotes [{ session_id := "s1", choice := "против", timestamp := 2, token_hash := "y" },
                { session_id := "s1", choice := "за", timestamp := 1, token_hash := "x" }] :=
  c9_tally_order_independent _ _
    (List.Perm.swap
      ({ session_id := "s1", choice := "против", timestamp := 2, token_hash := "y" } : VoteRecord)
      ({ session_id := "s1", choice := "за", timestamp := 1, token_hash := "x" } : VoteRecord) [])

/-- C2 counterexample: with a window already `active` for session "s1",
`start_voting` does not fail with any error — it succeeds, issues a fresh
credential "tokB", and replaces the window.  The claimed `InvalidState`
guard does not exist in the code. -/
theorem c2_counterexample :
    (alookup "s1" exS2.active_voting).map VotingInfo.status = some "active" ∧
    (start_voting genB "s1" 7 exVoting exS2).1 =
      Except.ok ([{ member := "alice", contact := "a@x", token := "tokB",
                    voting_url := "/vote?token=tokB" }], 307) ∧
    alookup "tokB" (start_voting genB "s1" 7 exVoting exS2).2.tokens ≠ none ∧
    alookup "s1" (start_voting genB "s1" 7 exVoting exS2).2.active_voting =
      some (startedWindow 7 exVoting) :=
  ⟨rfl, rfl, by decide, rfl⟩

/-- C2 (amended): `start_voting` checks only that the session exists; even
when a window is already `Active` it succeeds, mints one credential per
roster member, and installs a fresh `Active` window (the previous one is
overwritten).  It fails only with `NotFound` for unknown sessions. -/
theorem c2_start_voting_no_active_guard (gen : Nat → String) (sid : String) (now : Nat)
    (v : VotingInput) (s : Storage) (sd : SessionData)
    (hs : alookup sid s.sessions = some sd) :
    ∃ outs : List TokenOut,
      (start_voting gen sid now v s).1 =
        Except.ok (outs, now + v.duration_minutes * 60) ∧
      outs.length = ((alookup sid s.members).getD []).length ∧
      alookup sid (start_voting gen sid now v s).2.active_voting =
        some (startedWindow now v) := by
  refine ⟨((alookup sid s.members).getD []).enum.map (fun p =>
      { member := p.2.name, contact := p.2.contact, token := gen p.1,
        voting_url := "/vote?token=" ++ gen p.1 }), ?_, ?_, ?_⟩
  · simp [start_voting, hs]
  · simp
  · simp only [start_voting, hs]
    rw [alookup_upsert, if_pos rfl]
    rfl

/-- C2 witness: the amended statement instantiated on the second
`start_voting` call of the concrete run. -/
theorem c2_witness :
    alookup "s1" (start_voting genB "s1" 7 exVoting exS2).2.active_voting =
      some (startedWindow 7 exVoting) := by
  obtain ⟨outs, h1, h2, h3⟩ := c2_start_voting_no_active_guard genB "s1" 7 exVoting exS2
    { id := "s1", title := "t", description := "d", created_at := 0, status := "voting" }
    rfl
  exact h3

/-- C3 counterexample: `end_voting` called twice in a row on the concrete
run — the second call does not fail with any error: it passes the guard
(the completed entry is still in `active_voting`), recomputes, and returns
success with the same results.  The claimed `InvalidState` on the second
call does not exist in the code; the only failure of `end_voting` is
`NotFound` when no window was ever opened. -/
theorem c3_counterexample :
    (end_voting "s1" exS3).1 = Except.ok { za := 1, protiv := 0, vozd := 0 } ∧
    (alookup "s1" exS4.active_voting).map VotingInfo.status = some "completed" ∧
    (end_voting "s1" exS4).1 = Except.ok { za := 1, protiv := 0, vozd := 0 } :=
  ⟨rfl, rfl, rfl⟩

/-- C3 (amended): a second `end_voting` call does not fail with
`InvalidState` — it passes the guard again, recomputes over the unchanged
ledger and credentials, succeeds, and both returns and records the same
results as the first call. -/
theorem c3_end_voting_second_call (sid : String) (s : Storage) (r : Counts)
    (s1 : Storage) (h : end_voting sid s = (Except.ok r, s1)) :
    (end_voting sid s1).1 = Except.ok r ∧
    (alookup sid (end_voting sid s1).2.active_voting).map VotingInfo.results =
      some (some r) := by
  cases hvi : alookup sid s.active_voting with
  | none => simp [end_voting, hvi] at h
  | some vi =>
    rw [end_voting_shape sid s vi hvi, Prod.mk.injEq] at h
    obtain ⟨h1, h2⟩ := h
    have hr : finalResults s sid = r := by
      injection h1
    subst h2
    have hvi2 : alookup sid (upsert sid
        { vi with status := "completed", results := some (finalResults s sid) }
        s.active_voting) = some
        { vi with status := "completed", results := some (finalResults s sid) } := by
      rw [alookup_upsert, if_pos rfl]
    constructor
    · rw [end_voting_shape _ _ _ hvi2]
      show Except.ok _ = _
      rw [← hr]
      rfl
    · rw [end_voting_shape _ _ _ hvi2]
      show (alookup sid (upsert sid _ _)).map VotingInfo.results = _
      rw [alookup_upsert, if_pos rfl]
      show some (some (finalResults _ sid)) = _
      rw [← hr]
      rfl

/-- C3 witness: the amended statement instantiated on the concrete run. -/
theorem c3_witness :
    (end_voting "s1" exS4).1 = Except.ok { za := 1, protiv := 0, vozd := 0 } ∧
    (alookup "s1" (end_voting "s1" exS4).2.active_voting).map VotingInfo.results =
      some (some { za := 1, protiv := 0, vozd := 0 }) :=
  c3_end_voting_second_call "s1" exS3 { za := 1, protiv := 0, vozd := 0 } exS4 rfl

/-- Modelled from the spec: the Tally Engine contract — "Pure function over a
ledger plus a count of outstanding (unredeemed) credentials:
`tally(votes, outstandingCount) → {for, against, abstain}` where `abstain` =
explicit abstain votes + outstandingCount", with `for` and `against` taken
solely from the ledger.  Written from the spec wording, to be compared with
what `end_voting` computes. -/
def specTally (votes : List VoteRecord) (outstandingCount : Nat) : Counts :=
  { za := votes.countP (fun v => v.choice = "за")
    protiv := votes.countP (fun v => v.choice = "против")
    vozd := votes.countP (fun v => v.choice = "воздержался") + outstandingCount }

/-- C6: the results a successful `end_voting` returns are exactly the
spec's tally function applied to the session ledger and the count of
credentials of that session still unredeemed at close time: `for` and
`against` come solely from the ledger, and only the abstain component is
increased by the outstanding count. -/
theorem c6_close_results_refine_spec_tally (sid : String) (s : Storage) (r : Counts)
    (s1 : Storage) (h : end_voting sid s = (Except.ok r, s1)) :
    r = specTally (getVotes s sid) (unusedCount s sid) := by
  cases hvi : alookup sid s.active_voting with
  | none => simp [end_voting, hvi] at h
  | some vi =>
    rw [end_voting_shape sid s vi hvi, Prod.mk.injEq] at h
    obtain ⟨h1, h2⟩ := h
    have hr : finalResults s sid = r := by
      injection h1
    rw [← hr]
    rfl

/-- C6 witness: the refinement instantiated on the concrete run. -/
theorem c6_witness :
    ({ za := 1, protiv := 0, vozd := 0 } : Counts) =
      specTally (getVotes exS3 "s1") (unusedCount exS3 "s1") :=
  c6_close_results_refine_spec_tally "s1" exS3 { za := 1, protiv := 0, vozd := 0 } exS4 rfl

/-- A window is `active` for a session exactly when `submit_vote`'s check
`session_id in storage.active_voting and status == "active"` passes. -/
def windowActive (s : Storage) (sid : String) : Prop :=
  ∃ vi, alookup sid s.active_voting = some vi ∧ vi.status = "active"

/-- C7: `submit_vote` returns the typed error matching each failure mode —
unknown credential, already redeemed, expired, window not active, invalid
choice, tested in source order — and on every failure the returned storage
is the unchanged input storage: no ledger append, no change to any
credential's `used` flag. -/
theorem c7_submit_vote_failures_mutate_nothing (hashFn : String → String)
    (tok choice : String) (now : Nat) (s : Storage) :
    (∀ e, (submit_vote hashFn tok choice now s).1 = Except.error e →
      (submit_vote hashFn tok choice now s).2 = s) ∧
    (alookup tok s.tokens = none →
      submit_vote hashFn tok choice now s = (Except.error ApiError.tokenNotFound, s)) ∧
    (∀ td, alookup tok s.tokens = some td → td.used = true →
      submit_vote hashFn tok choice now s = (Except.error ApiError.alreadyUsed, s)) ∧
    (∀ td, alookup tok s.tokens = some td → td.used = false → td.expires_at < now →
      submit_vote hashFn tok choice now s = (Except.error ApiError.expired, s)) ∧
    (∀ td, alookup tok s.tokens = some td → td.used = false → ¬ td.expires_at < now →
      ¬ windowActive s td.session_id →
      submit_vote hashFn tok choice now s = (Except.error ApiError.notActive, s)) ∧
    (∀ td, alookup tok s.tokens = some td → td.used = false → ¬ td.expires_at < now →
      windowActive s td.session_id → choice ∉ validChoices →
      submit_vote hashFn tok choice now s = (Except.error ApiError.invalidChoice, s)) := by
  refine ⟨submit_vote_err_state hashFn tok choice now s, ?_, ?_, ?_, ?_, ?_⟩
  · intro h
    simp [submit_vote, h]
  · intro td htd h1
    simp [submit_vote, htd, h1]
  · intro td htd h1 h2
    simp [submit_vote, htd, h1, h2]
  · intro td htd h1 h2 h3
    cases hvi : alookup td.session_id s.active_voting with
    | none => simp [submit_vote, htd, h1, h2, hvi]
    | some vi =>
      have h4 : vi.status ≠ "active" := fun hc => h3 ⟨vi, hvi, hc⟩
      simp [submit_vote, htd, h1, h2, hvi, h4]
  · intro td htd h1 h2 h3 h4
    obtain ⟨vi, hvi, hst⟩ := h3
    simp [submit_vote, htd, h1, h2, hvi, hst, h4]

/-- C7 witness: the already-used failure mode instantiated on the concrete
run — resubmitting `tokA` after redemption fails and changes nothing. -/
theorem c7_witness :
    submit_vote hashF "tokA" "за" 20 exS3 = (Except.error ApiError.alreadyUsed, exS3) :=
  (c7_submit_vote_failures_mutate_nothing hashF "tokA" "за" 20 exS3).2.2.1 exTd rfl rfl

/-- C5 counterexample: after `end_voting` completed the window of session
"s1", resubmitting the already-redeemed credential `tokA` fails with
`AlreadyUsed` (400 "Токен уже использован"), not with the window-state
error `InvalidState` (400 "Голосование не активно"): the `used` check runs
before the window-state check, so the error is not `InvalidState`
"regardless of the credential's own used/expired state". -/
theorem c5_counterexample :
    (alookup "s1" exS4.active_voting).map VotingInfo.status = some "completed" ∧
    (submit_vote hashF "tokA" "против" 20 exS4).1 = Except.error ApiError.alreadyUsed ∧
    (submit_vote hashF "tokA" "против" 20 exS4).1 ≠ Except.error ApiError.notActive :=
  ⟨rfl, rfl, by intro h; injection h with h2; cases h2⟩

/-- C5 (amended): once a session's window is no longer `active` (in
particular after `end_voting` set it to `completed`), every `submit_vote`
with a credential of that session fails and leaves the storage unchanged —
nothing is ever appended to the ledger — but the error depends on the
credential's own state, because the checks run in source order: a redeemed
credential gets `AlreadyUsed`, an unredeemed expired one gets `Expired`,
and only an unredeemed unexpired one gets the window-state error
`InvalidState`. -/
theorem c5_submit_after_close_always_fails (hashFn : String → String)
    (tok choice : String) (now : Nat) (s : Storage) (td : TokenData) (vi : VotingInfo)
    (htd : alookup tok s.tokens = some td)
    (hvi : alookup td.session_id s.active_voting = some vi)
    (hcl : vi.status ≠ "active") :
    ∃ e : ApiError, submit_vote hashFn tok choice now s = (Except.error e, s) ∧
      (td.used = true → e = ApiError.alreadyUsed) ∧
      (td.used = false → td.expires_at < now → e = ApiError.expired) ∧
      (td.used = false → ¬ td.expires_at < now → e = ApiError.notActive) := by
  by_cases h1 : td.used
  · refine ⟨ApiError.alreadyUsed, ?_, fun _ => rfl, ?_, ?_⟩
    · simp [submit_vote, htd, h1]
    · intro h2
      rw [h1] at h2
      cases h2
    · intro h2
      rw [h1] at h2
      cases h2
  · rw [Bool.not_eq_true] at h1
    by_cases h2 : td.expires_at < now
    · refine ⟨ApiError.expired, ?_, ?_, fun _ _ => rfl, ?_⟩
      · simp [submit_vote, htd, h1, h2]
      · intro h3
        rw [h1] at h3
        cases h3
      · intro _ h3
        exact absurd h2 h3
    · refine ⟨ApiError.notActive, ?_, ?_, ?_, fun _ _ => rfl⟩
      · simp [submit_vote, htd, h1, h2, hvi, hcl]
      · intro h3
        rw [h1] at h3
        cases h3
      · intro _ h3
        exact absurd h3 h2

/-- C5 witness: the amended statement instantiated after the close of the
concrete run, on the redeemed credential `tokA`. -/
theorem c5_witness :
    submit_vote hashF "tokA" "против" 20 exS4 =
      (Except.error ApiError.alreadyUsed, exS4) := by
  obtain ⟨e, h1, h2, h3, h4⟩ := c5_submit_after_close_always_fails hashF "tokA" "против"
    20 exS4 exTd
    { presenter_name := "p", topic_title := "tt", topic_description := "td",
      start_time := 0, end_time := 300, duration_minutes := 5, status := "completed",
      results := some { za := 1, protiv := 0, vozd := 0 } }
    rfl rfl (by decide)
  rw [h2 rfl] at h1
  exact h1

/-- No transition ever changes the stored entry of a redeemed credential:
once `used=true`, the token entry survives every later call unchanged
(freshly minted tokens are new keys, and `submit_vote` rejects a used token
before mutating anything). -/
theorem used_preserved (hashFn : String → String) {s s1 : Storage}
    (hstep : Step hashFn s s1) (tok : String) (td : TokenData)
    (htd : alookup tok s.tokens = some td) (hused : td.used = true) :
    alookup tok s1.tokens = some td := by
  cases hstep with
  | create sid now inp s0 hfresh => exact htd
  | start gen sid now v s0 hnd hfresh =>
    cases hs : alookup sid s.sessions with
    | none =>
      have h0 : (start_voting gen sid now v s).2 = s := by simp [start_voting, hs]
      rw [h0]
      exact htd
    | some sd =>
      rw [start_voting_shape gen sid now v s sd hs hnd hfresh]
      show alookup tok (s.tokens ++ _) = some td
      rw [alookup_append, htd]
  | submit tok1 choice1 now1 s0 =>
    cases hres : (submit_vote hashFn tok1 choice1 now1 s).1 with
    | error e =>
      rw [submit_vote_err_state _ _ _ _ _ e hres]
      exact htd
    | ok u =>
      obtain ⟨td1, vi1, htd1, hused1, hexp1, hvi1, hact1, hch1⟩ :=
        submit_vote_ok_inv hashFn tok1 choice1 now1 s (by cases u; exact hres)
      rw [submit_vote_success_shape hashFn tok1 choice1 now1 s td1 vi1 htd1 hused1
        hexp1 hvi1 hact1 hch1]
      show alookup tok (upsert tok1 _ s.tokens) = some td
      have hne : tok1 ≠ tok := by
        intro he
        subst he
        rw [htd1] at htd
        injection htd with h2
        rw [h2, hused] at hused1
        cases hused1
      rw [alookup_upsert, if_neg hne]
      exact htd
  | close sid s0 =>
    cases hvi : alookup sid s.active_voting with
    | none =>
      have h0 : (end_voting sid s).2 = s := by simp [end_voting, hvi]
      rw [h0]
      exact htd
    | some vi =>
      rw [end_voting_shape sid s vi hvi]
      exact htd

/-- The entry of a redeemed credential survives any number of transitions. -/
theorem used_preserved_star (hashFn : String → String) {s s1 : Storage}
    (h : Relation.ReflTransGen (Step hashFn) s s1) (tok : String) (td : TokenData)
    (htd : alookup tok s.tokens = some td) (hused : td.used = true) :
    alookup tok s1.tokens = some td := by
  induction h with
  | refl => exact htd
  | tail hab hbc ih => exact used_preserved hashFn hbc tok td ih hused

/-- C1: a credential redeems at most once.  In every reachable state, if a
credential's entry is `used=true` then (i) every `submit_vote` presenting
it returns `AlreadyUsed` and changes nothing, (ii) the entry — in
particular the `used=true` flag — persists through every later sequence of
transitions (the transition is one-way), and (iii) the session ledger
contains exactly one vote whose hash equals that credential's hash
(assuming the hash function is injective, as collision-free SHA-256 is
modelled). -/
theorem c1_credential_redeems_at_most_once (hashFn : String → String)
    (hinj : Function.Injective hashFn) (s : Storage) (hreach : Reachable hashFn s)
    (tok : String) (td : TokenData) (htd : alookup tok s.tokens = some td)
    (hused : td.used = true) :
    (∀ choice now,
      submit_vote hashFn tok choice now s = (Except.error ApiError.alreadyUsed, s)) ∧
    (∀ s1, Relation.ReflTransGen (Step hashFn) s s1 →
      alookup tok s1.tokens = some td) ∧
    (getVotes s td.session_id).countP (fun v => v.token_hash = hashFn tok) = 1 := by
  refine ⟨?_, ?_, ?_⟩
  · intro choice now
    simp [submit_vote, htd, hused]
  · intro s1 hstar
    exact used_preserved_star hashFn hstar tok td htd hused
  · have hinv := inv_of_reachable hashFn hreach
    rw [hinv.ledgerHash td.session_id (hashFn tok), usedCountHash]
    have hc2 : s.tokens.countP
        (fun p => p.2.session_id = td.session_id && p.2.used &&
          hashFn p.1 = hashFn tok) =
      s.tokens.countP (fun p => decide (p.1 = tok) &&
        (decide (p.2.session_id = td.session_id) && p.2.used)) := by
      refine List.countP_congr ?_
      intro p hp
      by_cases he : p.1 = tok
      · simp [he]
      · have hne : hashFn p.1 ≠ hashFn tok := fun hc => he (hinj hc)
        simp [he, hne]
    rw [hc2]
    rw [countP_key_eq (fun p => decide (p.2.session_id = td.session_id) && p.2.used)
      hinv.tokensNodup htd]
    simp [hused]

/-- C1 witness: on the concrete run, resubmitting `tokA` fails with
`AlreadyUsed` and changes nothing, the entry survives the close transition,
and the ledger of "s1" holds exactly one vote hashing to `tokA`. -/
theorem c1_witness :
    submit_vote hashF "tokA" "против" 20 exS3 = (Except.error ApiError.alreadyUsed, exS3) ∧
    alookup "tokA" exS4.tokens = some exTd ∧
    (getVotes exS3 exTd.session_id).countP (fun v => v.token_hash = hashF "tokA") = 1 :=
  ⟨(c1_credential_redeems_at_most_once hashF hashF_injective exS3 exS3_reachable
      "tokA" exTd rfl rfl).1 "против" 20,
   (c1_credential_redeems_at_most_once hashF hashF_injective exS3 exS3_reachable
      "tokA" exTd rfl rfl).2.1 exS4
      (Relation.ReflTransGen.single (Step.close "s1" exS3)),
   (c1_credential_redeems_at_most_once hashF hashF_injective exS3 exS3_reachable
      "tokA" exTd rfl rfl).2.2⟩

/-- No hash under `hashF` ever equals the plaintext credential "tokA". -/
theorem hashF_ne_tokA (u : String) : hashF u ≠ "tokA" := by
  intro h
  have h2 : ("h:" ++ u).data = "tokA".data := congrArg String.data h
  rw [String.data_append] at h2
  have h3 : "h:".data = ['h', ':'] := rfl
  rw [h3] at h2
  injection h2 with ha hb
  exact absurd ha (by decide)

/-- C10: the anonymity boundary of the ledger.  In every reachable state,
(i) every ledger record consists of the session id, a valid choice, a
timestamp, and the one-way hash `hashFn t` of some redeemed credential `t`
of that session; (ii) the length of a session's ledger equals the number of
that session's credentials with `used=true`; (iii) no field of any ledger
record equals a plaintext credential (for a credential that is not itself a
hash value, a choice word, or a session key); and (iv) a successful
`submit_vote` appends exactly one record — carrying only the hash — while
marking exactly the presented credential as used. -/
theorem c10_ledger_holds_only_hashes (hashFn : String → String) (s : Storage)
    (hreach : Reachable hashFn s) :
    (∀ sid : String, ∀ v ∈ getVotes s sid,
      v.session_id = sid ∧ v.choice ∈ validChoices ∧
      ∃ t td, alookup t s.tokens = some td ∧ td.used = true ∧ td.session_id = sid ∧
        v.token_hash = hashFn t) ∧
    (∀ sid : String, (getVotes s sid).length = usedCount s sid) ∧
    (∀ sid : String, ∀ v ∈ getVotes s sid, ∀ t : String,
      (alookup t s.tokens).isSome = true → (∀ u : String, hashFn u ≠ t) →
      t ∉ validChoices → alookup t s.sessions = none →
      v.token_hash ≠ t ∧ v.session_id ≠ t ∧ v.choice ≠ t) ∧
    (∀ tok choice : String, ∀ now : Nat,
      (submit_vote hashFn tok choice now s).1 = Except.ok () →
      ∃ td, alookup tok s.tokens = some td ∧
        getVotes (submit_vote hashFn tok choice now s).2 td.session_id =
          getVotes s td.session_id ++
            [{ session_id := td.session_id, choice := choice, timestamp := now,
               token_hash := hashFn tok }] ∧
        alookup tok (submit_vote hashFn tok choice now s).2.tokens =
          some { td with used := true, voted_at := some now }) := by
  have hinv := inv_of_reachable hashFn hreach
  refine ⟨hinv.ledgerRecord, hinv.ledgerLen, ?_, ?_⟩
  · intro sid v hv t htIn hnoHash htch hts
    obtain ⟨ha, hb, t1, td1, hc, hd, he, hf⟩ := hinv.ledgerRecord sid v hv
    refine ⟨?_, ?_, ?_⟩
    · rw [hf]
      exact hnoHash t1
    · rw [ha]
      intro hcon
      subst hcon
      have hvs : alookup sid s.votes ≠ none := by
        intro h0
        have hv2 : v ∈ (alookup sid s.votes).getD [] := hv
        rw [h0] at hv2
        simp at hv2
      have hsome := hinv.votesSession sid hvs
      rw [hts] at hsome
      cases hsome
    · intro hcon
      rw [hcon] at hb
      exact htch hb
  · intro tok choice now hok
    obtain ⟨td, vi, htd, hused, hexp, hvi, hact, hch⟩ :=
      submit_vote_ok_inv hashFn tok choice now s hok
    refine ⟨td, htd, ?_, ?_⟩
    · rw [submit_vote_success_shape hashFn tok choice now s td vi htd hused hexp
        hvi hact hch]
      show (alookup td.session_id (upsert td.session_id _ s.votes)).getD [] = _
      rw [alookup_upsert, if_pos rfl]
      rfl
    · rw [submit_vote_success_shape hashFn tok choice now s td vi htd hused hexp
        hvi hact hch]
      show alookup tok (upsert tok _ s.tokens) = _
      rw [alookup_upsert, if_pos rfl]

/-- C10 witness: on the concrete run, the ledger length of "s1" equals its
redeemed-credential count, and the lone ledger record of "s1" stores
neither the plaintext credential "tokA" in any field. -/
theorem c10_witness :
    (getVotes exS3 "s1").length = usedCount exS3 "s1" ∧
    ({ session_id := "s1", choice := "за", timestamp := 10,
       token_hash := hashF "tokA" } : VoteRecord).token_hash ≠ "tokA" ∧
    ({ session_id := "s1", choice := "за", timestamp := 10,
       token_hash := hashF "tokA" } : VoteRecord).session_id ≠ "tokA" :=
  ⟨(c10_ledger_holds_only_hashes hashF exS3 exS3_reachable).2.1 "s1",
   ((c10_ledger_holds_only_hashes hashF exS3 exS3_reachable).2.2.1 "s1"
      { session_id := "s1", choice := "за", timestamp := 10, token_hash := hashF "tokA" }
      (by decide) "tokA" (by decide) hashF_ne_tokA (by decide) (by decide)).1,
   ((c10_ledger_holds_only_hashes hashF exS3 exS3_reachable).2.2.1 "s1"
      { session_id := "s1", choice := "за", timestamp := 10, token_hash := hashF "tokA" }
      (by decide) "tokA" (by decide) hashF_ne_tokA (by decide) (by decide)).2.1⟩

theorem countP_upsert_congr {α : Type} {k : String} {w v : α} {l : List (String × α)}
    {p : String × α → Bool} (h : alookup k l = some w) (he : p (k, v) = p (k, w)) :
    (upsert k v l).countP p = l.countP p := by
  have hc := countP_upsert_some (l := l) v p h
  rw [he] at hc
  omega

/-- Fold a sequence of `submit_vote` calls (token, choice, time) over the
storage; each failed call leaves the storage unchanged. -/
def submitMany (hashFn : String → String) (calls : List (String × String × Nat))
    (s : Storage) : Storage :=
  calls.foldl (fun st c => (submit_vote hashFn c.1 c.2.1 c.2.2 st).2) s

theorem reachable_submitMany (hashFn : String → String)
    (calls : List (String × String × Nat)) {s : Storage} (h : Reachable hashFn s) :
    Reachable hashFn (submitMany hashFn calls s) := by
  induction calls generalizing s with
  | nil => exact h
  | cons c rest ih => exact ih (Reachable.step h (Step.submit c.1 c.2.1 c.2.2 s))

/-- A `submit_vote` call never adds or removes a credential of any session:
it only flips the `used` flag of an existing one. -/
theorem sidTokenCount_submit (hashFn : String → String) (tok choice : String)
    (now : Nat) (s : Storage) (sid : String) :
    sidTokenCount (submit_vote hashFn tok choice now s).2 sid = sidTokenCount s sid := by
  cases hres : (submit_vote hashFn tok choice now s).1 with
  | error e => rw [submit_vote_err_state hashFn tok choice now s e hres]
  | ok u =>
    obtain ⟨td, vi, htd, hused, hexp, hvi, hact, hch⟩ :=
      submit_vote_ok_inv hashFn tok choice now s (by cases u; exact hres)
    rw [submit_vote_success_shape hashFn tok choice now s td vi htd hused hexp
      hvi hact hch]
    show (upsert tok _ s.tokens).countP _ = s.tokens.countP _
    exact countP_upsert_congr htd rfl

theorem sidTokenCount_submitMany (hashFn : String → String)
    (calls : List (String × String × Nat)) (s : Storage) (sid : String) :
    sidTokenCount (submitMany hashFn calls s) sid = sidTokenCount s sid := by
  induction calls generalizing s with
  | nil => rfl
  | cons c rest ih =>
    show sidTokenCount (submitMany hashFn rest (submit_vote hashFn c.1 c.2.1 c.2.2 s).2)
      sid = _
    rw [ih, sidTokenCount_submit]

theorem countP_used_split (l : List (String × TokenData)) (sid : String) :
    l.countP (fun p => p.2.session_id = sid && p.2.used) +
      l.countP (fun p => p.2.session_id = sid && p.2.used = false) =
      l.countP (fun p => p.2.session_id = sid) := by
  induction l with
  | nil => rfl
  | cons a l ih =>
    by_cases h1 : a.2.session_id = sid
    · by_cases h2 : a.2.used
      · rw [List.countP_cons_of_pos _ _ (by simp [h1, h2]),
          List.countP_cons_of_neg _ _ (by simp [h1, h2]),
          List.countP_cons_of_pos _ _ (by simp [h1])]
        omega
      · rw [Bool.not_eq_true] at h2
        rw [List.countP_cons_of_neg _ _ (by simp [h1, h2]),
          List.countP_cons_of_pos _ _ (by simp [h1, h2]),
          List.countP_cons_of_pos _ _ (by simp [h1])]
        omega
    · rw [List.countP_cons_of_neg _ _ (by simp [h1]),
        List.countP_cons_of_neg _ _ (by simp [h1]),
        List.countP_cons_of_neg _ _ (by simp [h1])]
      omega

/-- Redeemed plus unredeemed credentials of a session add up to all its
credentials. -/
theorem used_add_unused (s : Storage) (sid : String) :
    usedCount s sid + unusedCount s sid = sidTokenCount s sid :=
  countP_used_split s.tokens sid

/-- Folding a ledger whose choices are all admissible counts every entry
exactly once. -/
theorem countVotes_sum_of_valid (l : List VoteRecord)
    (h : ∀ v ∈ l, v.choice ∈ validChoices) :
    (countVotes l).za + (countVotes l).protiv + (countVotes l).vozd = l.length := by
  induction l with
  | nil => rfl
  | cons a l ih =>
    have ha := h a (List.mem_cons_self a l)
    have ih2 := ih (fun v hv => h v (List.mem_cons_of_mem a hv))
    have ha2 : a.choice = "за" ∨ a.choice = "против" ∨ a.choice = "воздержался" := by
      simpa [validChoices] using ha
    simp only [countVotes, List.countP_cons, List.length_cons]
    simp only [countVotes] at ih2
    rcases ha2 with h1 | h1 | h1 <;> simp [h1] <;> omega

/-- C4: conservation of the roster.  Starting from any reachable state,
create a session with a fresh identifier, open exactly one voting window
(minting one fresh credential per roster member), run any sequence of
`submit_vote` calls, and close the window: the returned results satisfy
`for + against + abstain = rosterSize`. -/
theorem c4_close_conserves_roster (hashFn : String → String) (s : Storage)
    (hreach : Reachable hashFn s) (sid : String) (now1 now2 : Nat)
    (inp : SessionInput) (v : VotingInput) (gen : Nat → String)
    (calls : List (String × String × Nat)) (r : Counts)
    (hfresh : alookup sid s.sessions = none)
    (hnd : (inp.members.enum.map (fun p => gen p.1)).Nodup)
    (hfreshTok : ∀ p ∈ inp.members.enum, alookup (gen p.1) s.tokens = none)
    (hend : (end_voting sid (submitMany hashFn calls
      (start_voting gen sid now2 v (create_session sid now1 inp s).2).2)).1 =
      Except.ok r) :
    r.za + r.protiv + r.vozd = inp.members.length := by
  set s1 : Storage := (create_session sid now1 inp s).2 with hs1def
  set s2 : Storage := (start_voting gen sid now2 v s1).2 with hs2def
  set s3 : Storage := submitMany hashFn calls s2 with hs3def
  have hm : (alookup sid s1.members).getD [] = inp.members := by
    show (alookup sid (upsert sid inp.members s.members)).getD [] = inp.members
    rw [alookup_upsert, if_pos rfl]
    rfl
  have hnd1 : (((alookup sid s1.members).getD []).enum.map (fun p => gen p.1)).Nodup := by
    rw [hm]
    exact hnd
  have hfresh1 : ∀ p ∈ ((alookup sid s1.members).getD []).enum,
      alookup (gen p.1) s1.tokens = none := by
    rw [hm]
    intro p hp
    exact hfreshTok p hp
  have hr1 : Reachable hashFn s1 :=
    Reachable.step hreach (Step.create sid now1 inp s hfresh)
  have hr2 : Reachable hashFn s2 :=
    Reachable.step hr1 (Step.start gen sid now2 v s1 hnd1 hfresh1)
  have hr3 : Reachable hashFn s3 := reachable_submitMany hashFn calls hr2
  have hs1s : alookup sid s1.sessions = some
      { id := sid, title := inp.title, description := inp.description,
        created_at := now1, status := "created" } := by
    show alookup sid (upsert sid _ s.sessions) = _
    rw [alookup_upsert, if_pos rfl]
  have hshape := start_voting_shape gen sid now2 v s1 _ hs1s hnd1 hfresh1
  have htok2 : sidTokenCount s2 sid = inp.members.length := by
    have h2t : s2.tokens = s1.tokens ++
        mintedEntries gen sid now2 v ((alookup sid s1.members).getD []) := by
      rw [hs2def, hshape]
    rw [sidTokenCount, h2t, List.countP_append]
    have hz : s1.tokens.countP (fun p => p.2.session_id = sid) = 0 := by
      rw [List.countP_eq_zero]
      intro p hp
      have hp1 : p ∈ s.tokens := hp
      have h1 := (inv_of_reachable hashFn hreach).tokenSession p hp1
      simp only [decide_eq_true_eq]
      intro he
      rw [he, hfresh] at h1
      cases h1
    have hall : (mintedEntries gen sid now2 v
        ((alookup sid s1.members).getD [])).countP
          (fun p => p.2.session_id = sid) =
        (mintedEntries gen sid now2 v ((alookup sid s1.members).getD [])).length := by
      rw [List.countP_eq_length]
      intro q hq
      rw [mintedEntries] at hq
      obtain ⟨p, hp, rfl⟩ := List.mem_map.1 hq
      simp
    rw [hz, hall, hm, mintedEntries, List.length_map, List.enum_length]
    simp
  have htok3 : sidTokenCount s3 sid = inp.members.length := by
    rw [hs3def, sidTokenCount_submitMany, htok2]
  cases hvi3 : alookup sid s3.active_voting with
  | none => simp [end_voting, hvi3] at hend
  | some vi3 =>
    rw [end_voting_shape sid s3 vi3 hvi3] at hend
    have hr : finalResults s3 sid = r := by
      simpa using hend
    rw [← hr]
    have hvalid : ∀ w ∈ getVotes s3 sid, VoteRecord.choice w ∈ validChoices :=
      fun w hw => ((inv_of_reachable hashFn hr3).ledgerRecord sid w hw).2.1
    have hsum := countVotes_sum_of_valid (getVotes s3 sid) hvalid
    have hlen := (inv_of_reachable hashFn hr3).ledgerLen sid
    have hsplit := used_add_unused s3 sid
    show (finalResults s3 sid).za + (finalResults s3 sid).protiv +
      (finalResults s3 sid).vozd = inp.members.length
    simp only [finalResults]
    omega

/-- C4 witness: the conservation instantiated on the concrete one-member
run — one "за" vote, zero outstanding credentials, roster size one. -/
theorem c4_witness :
    (1 : Nat) + 0 + 0 = exInput.members.length :=
  c4_close_conserves_roster hashF Storage.empty Reachable.init "s1" 0 0 exInput
    exVoting genA [("tokA", "за", 10)] { za := 1, protiv := 0, vozd := 0 }
    rfl (by decide) (by decide) rfl
